import Mathlib

/-!
# Verification of the VGA sphere ray-marcher and raw-stream pipeline

Shallow embedding of the algorithmic core of the repository:
* `scripts/sphere_raymarcher.py` — vector helpers, sphere SDF, the
  `ray_march` sphere-tracing loop, the orbit camera and the per-pixel
  renderer (`render_frame`), with Python floats modelled as real numbers;
* `run.py` / `run_verilog.py` — `convert_raw_to_frames`: slicing a raw
  byte buffer into frames, the emitted diagnostics, the GIF / "latest"
  artifact writing steps;
* `test/simulate_vga.py` / `run_verilator.py` — the 2-bit to 8-bit
  color channel expander.
-/

open scoped Classical

namespace SphereRaymarcher

noncomputable section

/-- A 3-component vector of reals (Python: a 3-element float list). -/
structure Vec3 where
  x : ℝ
  y : ℝ
  z : ℝ

/-- The local `length = math.sqrt(sum(x*x for x in v))` of `normalize`:
the Euclidean length of a vector. -/
def vlen (v : Vec3) : ℝ := Real.sqrt (v.x * v.x + v.y * v.y + v.z * v.z)

/-- `normalize(v)` from sphere_raymarcher.py: divide by the Euclidean
length, falling back to `[0, 0, 1]` when the length is below `0.0001`. -/
def normalize (v : Vec3) : Vec3 :=
  if vlen v < 0.0001 then ⟨0, 0, 1⟩
  else ⟨v.x / vlen v, v.y / vlen v, v.z / vlen v⟩

/-- `dot(a, b)` from sphere_raymarcher.py. -/
def dot (a b : Vec3) : ℝ := a.x * b.x + a.y * b.y + a.z * b.z

/-- The cross-product formula as written inline for `up` in
sphere_raymarcher.py (`right × forward`, standard right-handed cross). -/
def cross (a b : Vec3) : Vec3 :=
  ⟨a.y * b.z - a.z * b.y, a.z * b.x - a.x * b.z, a.x * b.y - a.y * b.x⟩

/-- `sphere_sdf(p, center, radius)` from sphere_raymarcher.py. -/
def sphere_sdf (p center : Vec3) (radius : ℝ) : ℝ :=
  let dx := p.x - center.x
  let dy := p.y - center.y
  let dz := p.z - center.z
  Real.sqrt (dx * dx + dy * dy + dz * dz) - radius

/-- Module constant `SPHERE_RADIUS = 1.5`. -/
def SPHERE_RADIUS : ℝ := 1.5

/-- Module constant `CAMERA_DISTANCE = 4.0`. -/
def CAMERA_DISTANCE : ℝ := 4.0

/-- One possible result of `ray_march`: Python returns the triple
`(hit, t, position)`. -/
structure MarchResult where
  hit : Bool
  t : ℝ
  pos : Vec3

/-- The `for _ in range(max_steps)` loop body of `ray_march`, with the
remaining iteration count as fuel.  Each iteration computes
`p = origin + dir*t`, `dist = sphere_sdf(p, [0,0,0], SPHERE_RADIUS)`,
returns a hit when `dist < 0.001`, a miss when `t > max_dist`, and
otherwise continues with `t + dist`; an exhausted budget returns a miss
at the final `t`. -/
def rayMarchLoop (ray_origin ray_dir : Vec3) (max_dist : ℝ) :
    ℕ → ℝ → MarchResult
  | 0, t =>
      ⟨false, t, ⟨ray_origin.x + ray_dir.x * t, ray_origin.y + ray_dir.y * t,
        ray_origin.z + ray_dir.z * t⟩⟩
  | fuel + 1, t =>
      let p : Vec3 := ⟨ray_origin.x + ray_dir.x * t, ray_origin.y + ray_dir.y * t,
        ray_origin.z + ray_dir.z * t⟩
      let dist := sphere_sdf p ⟨0, 0, 0⟩ SPHERE_RADIUS
      if dist < 0.001 then ⟨true, t, p⟩
      else if t > max_dist then ⟨false, t, p⟩
      else rayMarchLoop ray_origin ray_dir max_dist fuel (t + dist)

/-- `ray_march(ray_origin, ray_dir, max_steps=64, max_dist=20.0)` from
sphere_raymarcher.py, starting at `t = 0`. -/
def ray_march (ray_origin ray_dir : Vec3) (max_steps : ℕ := 64)
    (max_dist : ℝ := 20.0) : MarchResult :=
  rayMarchLoop ray_origin ray_dir max_dist max_steps 0

/-- Modelled from the spec's sphere-tracing sentence, for comparison with
`ray_march`: starting at `t = 0`, iterate at most `maxSteps` times;
evaluate `p = origin + dir*t` and `d = sceneSDF p`; if `d < hitEpsilon`
return a hit `some (t, p)`; if `t > maxDistance` return a miss `none`;
otherwise advance `t` by `d`.  Exhausting the budget is a miss. -/
def sphereTraceSpecLoop (sceneSDF : Vec3 → ℝ) (origin dir : Vec3)
    (maxDistance hitEpsilon : ℝ) : ℕ → ℝ → Option (ℝ × Vec3)
  | 0, _ => none
  | steps + 1, t =>
      let p : Vec3 := ⟨origin.x + dir.x * t, origin.y + dir.y * t,
        origin.z + dir.z * t⟩
      let d := sceneSDF p
      if d < hitEpsilon then some (t, p)
      else if t > maxDistance then none
      else sphereTraceSpecLoop sceneSDF origin dir maxDistance hitEpsilon steps (t + d)

/-- Spec-side sphere tracing entry point: `t` starts at `0`. -/
def sphereTraceSpec (sceneSDF : Vec3 → ℝ) (origin dir : Vec3)
    (maxSteps : ℕ) (maxDistance hitEpsilon : ℝ) : Option (ℝ × Vec3) :=
  sphereTraceSpecLoop sceneSDF origin dir maxDistance hitEpsilon maxSteps 0

/-- The scene SDF the repository's `ray_march` hard-codes: a sphere of
radius `SPHERE_RADIUS` at the origin. -/
def sceneSDF (p : Vec3) : ℝ := sphere_sdf p ⟨0, 0, 0⟩ SPHERE_RADIUS

/-- Screen width, module constant `WIDTH = 640`. -/
def WIDTH : ℕ := 640

/-- Screen height, module constant `HEIGHT = 480`. -/
def HEIGHT : ℕ := 480

/-- Camera position in `render_frame`:
`[sin(angle)*CAMERA_DISTANCE, 0.5, cos(angle)*CAMERA_DISTANCE]`. -/
def cameraPos (angle : ℝ) : Vec3 :=
  ⟨Real.sin angle * CAMERA_DISTANCE, 0.5, Real.cos angle * CAMERA_DISTANCE⟩

/-- `forward = normalize([-cam_x, -cam_y, -cam_z])` in `render_frame`. -/
def cameraForward (angle : ℝ) : Vec3 :=
  normalize ⟨-(Real.sin angle * CAMERA_DISTANCE), -(0.5 : ℝ),
    -(Real.cos angle * CAMERA_DISTANCE)⟩

/-- `right = normalize([forward[2], 0, -forward[0]])` in `render_frame`. -/
def cameraRight (angle : ℝ) : Vec3 :=
  normalize ⟨(cameraForward angle).z, 0, -(cameraForward angle).x⟩

/-- `up` in `render_frame`: the inline component formulas are exactly
`cross right forward`. -/
def cameraUp (angle : ℝ) : Vec3 :=
  cross (cameraRight angle) (cameraForward angle)

/-- Modelled from the spec's camera sentence, for comparison with
`cameraRight`: `right = normalize(cross(forward, worldUp))` with the
world up axis `(0, 1, 0)`. -/
def specCameraRight (angle : ℝ) : Vec3 :=
  normalize (cross (cameraForward angle) ⟨0, 1, 0⟩)

/-- `light = normalize([0.5, 0.8, 0.3])` in `render_frame`. -/
def lightDir : Vec3 := normalize ⟨0.5, 0.8, 0.3⟩

/-- Per-pixel ray direction in `render_frame`:
`u = (2x/WIDTH - 1)*aspect*fov`, `v = (1 - 2y/HEIGHT)*fov`,
direction = `normalize(forward + right*u + up*v)` with
`aspect = WIDTH/HEIGHT` and `fov = 1.0`. -/
def rayDir (angle : ℝ) (x y : ℕ) : Vec3 :=
  let aspect : ℝ := (WIDTH : ℝ) / (HEIGHT : ℝ)
  let fov : ℝ := 1.0
  let u := (2.0 * (x : ℝ) / (WIDTH : ℝ) - 1.0) * aspect * fov
  let v := (1.0 - 2.0 * (y : ℝ) / (HEIGHT : ℝ)) * fov
  let f := cameraForward angle
  let r := cameraRight angle
  let up := cameraUp angle
  normalize ⟨f.x + r.x * u + up.x * v, f.y + r.y * u + up.y * v,
    f.z + r.z * u + up.z * v⟩

/-- The per-pixel body of `render_frame`: march the ray for pixel `(x,y)`;
on a hit shade with the diffuse model (`ambient = 0.15`, diffuse weight
`0.85`, clamp to 1, gamma `0.9`, warm per-channel affine maps truncated by
Python's `int`, i.e. the floor of these nonnegative values); on a miss
produce the vertical sky gradient from the row `y` alone. -/
def renderPixel (angle : ℝ) (x y : ℕ) : ℤ × ℤ × ℤ :=
  let res := ray_march (cameraPos angle) (rayDir angle x y)
  if res.hit then
    let normal := normalize res.pos
    let diffuse := max 0 (dot normal lightDir)
    let luma0 : ℝ := 0.15 + diffuse * 0.85
    let luma1 : ℝ := min 1.0 luma0
    let luma : ℝ := luma1 ^ (0.9 : ℝ)
    (⌊min 255 (luma * 255 + 50)⌋, ⌊min 255 (luma * 180 + 30)⌋,
      ⌊min 255 (luma * 100 + 20)⌋)
  else
    let t : ℝ := (y : ℝ) / (HEIGHT : ℝ)
    (⌊(20 : ℝ) + t * 15⌋, ⌊(30 : ℝ) + t * 20⌋, ⌊(80 : ℝ) + t * 40⌋)

/-- `render_frame(angle)` from sphere_raymarcher.py: row-major pixel list,
`y` from 0 to HEIGHT-1 outer, `x` from 0 to WIDTH-1 inner, each pixel
contributing its `[r, g, b]` channel values in order. -/
def render_frame (angle : ℝ) : List ℤ :=
  (List.range HEIGHT).flatMap fun y =>
    (List.range WIDTH).flatMap fun x =>
      let c := renderPixel angle x y
      [c.1, c.2.1, c.2.2]

end

end SphereRaymarcher

open SphereRaymarcher

section ColorExpander

/-- `extend_2bit_to_8bit(val)` from test/simulate_vga.py:
`(val << 6) | (val << 4) | (val << 2) | val`. -/
def extend_2bit_to_8bit (val : ℕ) : ℕ :=
  (val <<< 6) ||| (val <<< 4) ||| (val <<< 2) ||| val

/-- The C++ `extend_2bit` helper emitted by run_verilator.py: masks to the
low two bits first (`val &= 0x3`), then expands as above. -/
def extend_2bit (val : ℕ) : ℕ :=
  let v := val &&& 0x3
  (v <<< 6) ||| (v <<< 4) ||| (v <<< 2) ||| v

end ColorExpander

/-- **C4.** The 2-bit-to-8-bit channel expander computes
`(v<<6) | (v<<4) | (v<<2) | v` for every `v < 4`, which equals the map
`{0 → 0, 1 → 85, 2 → 170, 3 → 255}` (that is, `85 * v`), is strictly
monotonic and injective over `{0,1,2,3}`, satisfies `expand 0 = 0` and
`expand 3 = 255`, and agrees with the masked Verilator-side variant. -/
theorem extend_2bit_correct (v : ℕ) (hv : v < 4) :
    extend_2bit_to_8bit v = (v <<< 6) ||| (v <<< 4) ||| (v <<< 2) ||| v ∧
    extend_2bit_to_8bit v = 85 * v ∧
    extend_2bit_to_8bit 0 = 0 ∧ extend_2bit_to_8bit 1 = 85 ∧
    extend_2bit_to_8bit 2 = 170 ∧ extend_2bit_to_8bit 3 = 255 ∧
    (∀ a < 4, ∀ b < 4, a < b → extend_2bit_to_8bit a < extend_2bit_to_8bit b) ∧
    (∀ a < 4, ∀ b < 4, extend_2bit_to_8bit a = extend_2bit_to_8bit b → a = b) ∧
    extend_2bit v = extend_2bit_to_8bit v := by
  interval_cases v <;> exact ⟨rfl, by decide, by decide, by decide, by decide,
    by decide, by decide, by decide, by decide⟩

/-- Witness for `extend_2bit_correct` at `v = 2`. -/
theorem extend_2bit_correct_witness :
    extend_2bit_to_8bit 2 = 170 ∧ extend_2bit 2 = extend_2bit_to_8bit 2 :=
  ⟨(extend_2bit_correct 2 (by decide)).2.2.2.2.1,
   (extend_2bit_correct 2 (by decide)).2.2.2.2.2.2.2.2⟩

/-- The spec-side trace loop and the code's march loop agree step by step:
for every fuel and current `t`, the spec loop returns `some (t', p')`
exactly when the code loop reports a hit, and then at the same `t'`,`p'`. -/
theorem rayMarchLoop_agrees_spec (o d : Vec3) (fuel : ℕ) : ∀ t : ℝ,
    sphereTraceSpecLoop sceneSDF o d 20.0 0.001 fuel t =
      (if (rayMarchLoop o d 20.0 fuel t).hit then
        some ((rayMarchLoop o d 20.0 fuel t).t, (rayMarchLoop o d 20.0 fuel t).pos)
      else none) := by
  induction fuel with
  | zero =>
      intro t
      simp [sphereTraceSpecLoop, rayMarchLoop]
  | succ n ih =>
      intro t
      by_cases h1 : sphere_sdf ⟨o.x + d.x * t, o.y + d.y * t, o.z + d.z * t⟩
          ⟨0, 0, 0⟩ SPHERE_RADIUS < 0.001
      · simp [sphereTraceSpecLoop, rayMarchLoop, sceneSDF, h1]
      · by_cases h2 : t > 20.0
        · simp [sphereTraceSpecLoop, rayMarchLoop, sceneSDF, h1, h2]
        · simp [sphereTraceSpecLoop, rayMarchLoop, sceneSDF, h1, h2, ih]

/-- **C1.** The sphere-tracing loop follows exactly the specified
algorithm: for every ray origin and direction, starting at `t = 0` the
code's `ray_march` (at most 64 steps, `maxDistance = 20.0`,
`hitEpsilon = 0.001`) returns a hit at `(t, p)` precisely when the
spec-side algorithm `sphereTraceSpec` does, at the same `(t, p)`, and a
miss precisely when the spec-side algorithm misses (budget exhausted or
`t > maxDistance`). -/
theorem ray_march_follows_spec (o d : Vec3) :
    sphereTraceSpec sceneSDF o d 64 20.0 0.001 =
      (if (ray_march o d).hit then some ((ray_march o d).t, (ray_march o d).pos)
       else none) := by
  unfold sphereTraceSpec ray_march
  exact rayMarchLoop_agrees_spec o d 64 0

/-- **C5.** Rendering at angle `0` and at angle `2π` produces
pixel-identical output: the angle enters the renderer only through
`sin` and `cos`, which agree at `0` and `2π`. -/
theorem render_frame_periodic : render_frame (2 * Real.pi) = render_frame 0 := by
  simp only [render_frame, renderPixel, rayDir, cameraUp, cameraRight,
    cameraForward, cameraPos, Real.sin_two_pi, Real.cos_two_pi,
    Real.sin_zero, Real.cos_zero]

namespace SphereRaymarcher

/-- Unfolding `vlen` on an explicit vector. -/
theorem vlen_mk (a b c : ℝ) : vlen ⟨a, b, c⟩ = Real.sqrt (a * a + b * b + c * c) :=
  rfl

/-- The output of `normalize` always has Euclidean length exactly 1. -/
theorem vlen_normalize (v : Vec3) : vlen (normalize v) = 1 := by
  rw [normalize]
  split_ifs with h
  · rw [vlen_mk]
    norm_num
  · have hge : (0.0001 : ℝ) ≤ vlen v := not_lt.mp h
    have hpos : (0 : ℝ) < vlen v := by linarith
    have hne : vlen v ≠ 0 := ne_of_gt hpos
    have hS : 0 ≤ v.x * v.x + v.y * v.y + v.z * v.z :=
      add_nonneg (add_nonneg (mul_self_nonneg _) (mul_self_nonneg _))
        (mul_self_nonneg _)
    have hLL : vlen v * vlen v = v.x * v.x + v.y * v.y + v.z * v.z := by
      rw [vlen]
      exact Real.mul_self_sqrt hS
    rw [vlen_mk]
    have harg : v.x / vlen v * (v.x / vlen v) + v.y / vlen v * (v.y / vlen v) +
        v.z / vlen v * (v.z / vlen v) = 1 := by
      field_simp
      linarith [hLL]
    rw [harg, Real.sqrt_one]

/-- **C10.** `normalize` is total: every vector of Euclidean length at
least `0.0001` is scaled by the reciprocal of its length, every shorter
vector maps to the fixed fallback `[0, 0, 1]`, and every output — hence
every per-pixel ray direction `rayDir` and every hit-point surface normal
`normalize res.pos` the renderer produces — is a unit vector. -/
theorem normalize_total_unit (v : Vec3) :
    (0.0001 ≤ vlen v →
      normalize v = ⟨v.x / vlen v, v.y / vlen v, v.z / vlen v⟩) ∧
    (vlen v < 0.0001 → normalize v = ⟨0, 0, 1⟩) ∧
    vlen (normalize v) = 1 ∧
    (∀ angle : ℝ, ∀ x y : ℕ, vlen (rayDir angle x y) = 1) ∧
    (∀ res : MarchResult, vlen (normalize res.pos) = 1) := by
  refine ⟨fun h => ?_, fun h => ?_, vlen_normalize v, fun angle x y => ?_, fun res => vlen_normalize _⟩
  · rw [normalize, if_neg (not_lt.mpr h)]
  · rw [normalize, if_pos h]
  · simp only [rayDir]
    exact vlen_normalize _

/-- Witness for `normalize_total_unit`: the zero vector (the degenerate
case where the screen-space offset exactly cancels the forward vector)
falls back to `[0, 0, 1]`, and the output is a unit vector. -/
theorem normalize_total_unit_witness :
    normalize ⟨0, 0, 0⟩ = ⟨0, 0, 1⟩ ∧ vlen (normalize ⟨0, 0, 0⟩) = 1 :=
  ⟨(normalize_total_unit ⟨0, 0, 0⟩).2.1 (by rw [vlen_mk]; norm_num),
   (normalize_total_unit ⟨0, 0, 0⟩).2.2.1⟩

end SphereRaymarcher

namespace SphereRaymarcher

/-- `1 ≤ √16.25`, the length of the un-normalized forward vector at
angle 0. -/
theorem one_le_sqrt_1625 : (1 : ℝ) ≤ Real.sqrt 16.25 := by
  rw [show (1 : ℝ) = Real.sqrt 1 from Real.sqrt_one.symm]
  exact Real.sqrt_le_sqrt (by norm_num)

/-- `√16.25 ≤ 5`. -/
theorem sqrt_1625_le_5 : Real.sqrt 16.25 ≤ 5 := by
  have h : Real.sqrt 25 = 5 := by
    rw [show (25 : ℝ) = 5 ^ 2 by norm_num]
    exact Real.sqrt_sq (by norm_num)
  calc Real.sqrt 16.25 ≤ Real.sqrt 25 := Real.sqrt_le_sqrt (by norm_num)
    _ = 5 := h

/-- `normalize` on a vector supported on the x-axis alone divides by the
absolute value of the x component. -/
theorem normalize_xonly (a : ℝ) (ha : 0.0001 ≤ |a|) :
    normalize ⟨a, 0, 0⟩ = ⟨a / |a|, 0, 0⟩ := by
  have hv : vlen ⟨a, 0, 0⟩ = |a| := by
    rw [vlen_mk, show a * a + 0 * 0 + 0 * 0 = a ^ 2 by ring, Real.sqrt_sq_eq_abs]
  rw [normalize, hv, if_neg (not_lt.mpr ha)]
  norm_num

/-- The camera forward vector at angle 0, evaluated. -/
theorem cameraForward_zero :
    cameraForward 0 = ⟨0, -0.5 / Real.sqrt 16.25, -4 / Real.sqrt 16.25⟩ := by
  have harg : cameraForward 0 = normalize ⟨0, -0.5, -4⟩ := by
    rw [cameraForward]
    norm_num [CAMERA_DISTANCE]
  have hv : vlen ⟨0, -0.5, -4⟩ = Real.sqrt 16.25 := by
    rw [vlen_mk]
    norm_num
  have hnl : ¬ vlen ⟨0, -0.5, -4⟩ < 0.0001 := by
    rw [hv]
    exact not_lt.mpr (by linarith [one_le_sqrt_1625])
  rw [harg, normalize, if_neg hnl, hv]
  norm_num

/-- The camera right vector at angle 0 evaluates to `(-1, 0, 0)`. -/
theorem cameraRight_zero : cameraRight 0 = ⟨-1, 0, 0⟩ := by
  have hpos : (0 : ℝ) < Real.sqrt 16.25 := lt_of_lt_of_le zero_lt_one one_le_sqrt_1625
  have h1 : cameraRight 0 = normalize ⟨-4 / Real.sqrt 16.25, 0, 0⟩ := by
    rw [cameraRight, cameraForward_zero]
    norm_num
  have habs : |(-4 : ℝ) / Real.sqrt 16.25| = 4 / Real.sqrt 16.25 := by
    rw [abs_div, abs_of_nonneg (Real.sqrt_nonneg _)]
    norm_num
  have hge : (0.0001 : ℝ) ≤ |(-4 : ℝ) / Real.sqrt 16.25| := by
    rw [habs]
    have h45 : (4 : ℝ) / 5 ≤ 4 / Real.sqrt 16.25 := by
      rw [div_le_div_iff (by norm_num) hpos]
      nlinarith [sqrt_1625_le_5]
    linarith
  have hne : (4 : ℝ) / Real.sqrt 16.25 ≠ 0 := ne_of_gt (div_pos (by norm_num) hpos)
  rw [h1, normalize_xonly _ hge, habs]
  have hdiv : (-4 : ℝ) / Real.sqrt 16.25 / (4 / Real.sqrt 16.25) = -1 := by
    rw [neg_div, neg_div, div_self hne]
  rw [hdiv]

/-- The spec-formula right vector at angle 0 evaluates to `(1, 0, 0)`. -/
theorem specCameraRight_zero : specCameraRight 0 = ⟨1, 0, 0⟩ := by
  have hpos : (0 : ℝ) < Real.sqrt 16.25 := lt_of_lt_of_le zero_lt_one one_le_sqrt_1625
  have h1 : specCameraRight 0 = normalize ⟨4 / Real.sqrt 16.25, 0, 0⟩ := by
    rw [specCameraRight, cameraForward_zero, cross]
    congr 1
    dsimp only
    simp only [Vec3.mk.injEq]
    refine ⟨by ring, by ring, by ring⟩
  have habs : |(4 : ℝ) / Real.sqrt 16.25| = 4 / Real.sqrt 16.25 := by
    rw [abs_div, abs_of_nonneg (Real.sqrt_nonneg _)]
    norm_num
  have hge : (0.0001 : ℝ) ≤ |(4 : ℝ) / Real.sqrt 16.25| := by
    rw [habs]
    have h45 : (4 : ℝ) / 5 ≤ 4 / Real.sqrt 16.25 := by
      rw [div_le_div_iff (by norm_num) hpos]
      nlinarith [sqrt_1625_le_5]
    linarith
  have hne : (4 : ℝ) / Real.sqrt 16.25 ≠ 0 := ne_of_gt (div_pos (by norm_num) hpos)
  rw [h1, normalize_xonly _ hge, habs, div_self hne]

/-- **C3 counterexample.** At orbit angle 0 the code's `right` vector is
`(-1, 0, 0)`, while the spec formula `normalize(cross(forward, worldUp))`
yields `(1, 0, 0)`: the code computes the *negated* cross product, so the
claim's right-vector formula fails. -/
theorem camera_right_not_spec_cross :
    cameraRight 0 ≠ specCameraRight 0 ∧ cameraRight 0 = ⟨-1, 0, 0⟩ ∧
    specCameraRight 0 = ⟨1, 0, 0⟩ := by
  refine ⟨?_, cameraRight_zero, specCameraRight_zero⟩
  rw [cameraRight_zero, specCameraRight_zero]
  intro h
  have hx := congrArg Vec3.x h
  norm_num at hx

/-- **C3 (amended).** For every orbit angle the camera is built by the
stated formulas, except that the right vector is the normalized cross
product `cross(worldUp, forward)` (the negation of the claimed
`cross(forward, worldUp)`): position `(sin·R, 0.5, cos·R)` with `R = 4`,
`forward = normalize(target - position)` with the target at the origin,
and `up = cross(right, forward)`. -/
theorem camera_construction (angle : ℝ) :
    cameraPos angle = ⟨Real.sin angle * CAMERA_DISTANCE, 0.5,
      Real.cos angle * CAMERA_DISTANCE⟩ ∧
    cameraForward angle = normalize ⟨0 - (cameraPos angle).x,
      0 - (cameraPos angle).y, 0 - (cameraPos angle).z⟩ ∧
    cameraRight angle = normalize (cross ⟨0, 1, 0⟩ (cameraForward angle)) ∧
    cameraUp angle = cross (cameraRight angle) (cameraForward angle) := by
  refine ⟨rfl, ?_, ?_, rfl⟩
  · rw [cameraForward, cameraPos]
    norm_num
  · rw [cameraRight, cross]
    norm_num

end SphereRaymarcher

namespace RawPipeline

/-- `frame_size = H_DISPLAY * V_DISPLAY * 3` from `convert_raw_to_frames`
in run.py / run_verilog.py, generalized over the resolution. -/
def frame_size (width height : ℕ) : ℕ := width * height * 3

/-- The slicing core of `convert_raw_to_frames` (run.py lines 362-376,
run_verilog.py lines 326-344): `actual_frames = len(data) // frame_size`,
and frame `i` is `data[i*frame_size : (i+1)*frame_size]`. -/
def convert_raw_to_frames (data : List ℕ) (width height : ℕ) : List (List ℕ) :=
  (List.range (data.length / frame_size width height)).map fun i =>
    (data.drop (i * frame_size width height)).take (frame_size width height)

/-- The diagnostics `convert_raw_to_frames` can print, as an alphabet.
The first six constructors are the `print` calls of run.py's
`convert_raw_to_frames` in source order; `truncatedStreamWarning` is the
warning the spec's TruncatedStreamWarning taxonomy entry calls for and is
part of the alphabet only so that its absence can be stated — no print in
the code corresponds to it. -/
inductive ConvertMsg where
  | foundFrames (n : ℕ)
  | savingTo
  | savedFrame (iPlusOne total : ℕ)
  | createdGif
  | updatedLatest
  | couldNotUpdateLatest
  | truncatedStreamWarning (droppedBytes : ℕ)
deriving DecidableEq

/-- Whether a diagnostic is a truncation warning. -/
def ConvertMsg.isTruncationWarning : ConvertMsg → Bool
  | ConvertMsg.truncatedStreamWarning _ => true
  | _ => false

/-- The diagnostics printed by run.py's `convert_raw_to_frames`, in
order: `Found {n} frames in raw data`, `Saving frames to: …`, the
per-frame progress lines (every tenth frame and the last), `Created GIF`
when at least one frame exists, and the latest-pointer outcome (`Updated
latest` when the fresh GIF exists to copy, otherwise the caught-exception
message `Could not create latest copy`). -/
def convertMessages (data : List ℕ) (width height : ℕ) : List ConvertMsg :=
  let n := data.length / frame_size width height
  [ConvertMsg.foundFrames n, ConvertMsg.savingTo] ++
    ((List.range n).filterMap fun i =>
      if (i + 1) % 10 = 0 ∨ i = n - 1 then some (ConvertMsg.savedFrame (i + 1) n)
      else none) ++
    (if n ≠ 0 then [ConvertMsg.createdGif, ConvertMsg.updatedLatest]
     else [ConvertMsg.couldNotUpdateLatest])

/-- Outcome of the artifact-writing tail of `convert_raw_to_frames`
(run.py lines 382-404): whether the animated GIF was saved (`if images:`
guard), whether the `_latest.gif` copy was made (`shutil.copy` succeeds
exactly when the fresh GIF exists), whether an exception escaped (the
copy step is wrapped in `try/except`), and the `actual_frames` component
of the returned `(gif_path, actual_frames)` tuple. -/
structure WriteResult where
  gifWritten : Bool
  latestWritten : Bool
  raised : Bool
  retFrames : ℕ
deriving DecidableEq

/-- The artifact-writing tail of `convert_raw_to_frames` as a function of
the decoded frame images. -/
def write_artifacts (images : List (List ℕ)) : WriteResult :=
  { gifWritten := !images.isEmpty
    latestWritten := !images.isEmpty
    raised := false
    retFrames := images.length }

/-- A flat directory: file name to content. -/
def FS : Type := List (String × ℕ)

/-- Read a file (`os.path.exists` / open-for-read). -/
def fsRead : FS → String → Option ℕ
  | [], _ => none
  | (k, v) :: rest, name => if k = name then some v else fsRead rest name

/-- `os.remove`. -/
def fsRemove : FS → String → FS
  | [], _ => []
  | (k, v) :: rest, name =>
      if k = name then fsRemove rest name else (k, v) :: fsRemove rest name

/-- Create/overwrite a file with the given content. -/
def fsWrite (fs : FS) (name : String) (content : ℕ) : FS :=
  (name, content) :: fsRemove fs name

/-- The "latest"-pointer update of run.py lines 394-402 (same in
run_verilator.py lines 412-420), as the sequence of directory states a
concurrent reader can observe: the starting state; the state after
`if os.path.exists(latest_gif): os.remove(latest_gif)`; and the state
after `shutil.copy(gif_path, latest_gif)` (which changes nothing when the
source GIF is absent — the raised error is caught). -/
def updateLatestTrace (fs : FS) (gif latest : String) : List FS :=
  let s1 := if (fsRead fs latest).isSome then fsRemove fs latest else fs
  let s2 := match fsRead s1 gif with
    | some c => fsWrite s1 latest c
    | none => s1
  [fs, s1, s2]

end RawPipeline

open RawPipeline

/-- The flattening of equal-length frames has length `count * frameSize`. -/
theorem flatten_length_const (fs : ℕ) :
    ∀ frames : List (List ℕ), (∀ f ∈ frames, f.length = fs) →
      frames.flatten.length = frames.length * fs := by
  intro frames
  induction frames with
  | nil => intro _; simp
  | cons f rest ih =>
      intro hsz
      have hf : f.length = fs := hsz f (List.mem_cons_self f rest)
      have hrest := fun g hg => hsz g (List.mem_cons_of_mem f hg)
      simp [List.flatten_cons, hf, ih hrest]
      ring

/-- Slicing the flattening of equal-length frames at frame boundaries
recovers each frame. -/
theorem flatten_slice (fs : ℕ) :
    ∀ frames : List (List ℕ), (∀ f ∈ frames, f.length = fs) →
      ∀ i, ∀ hi : i < frames.length,
        (frames.flatten.drop (i * fs)).take fs = frames[i] := by
  intro frames
  induction frames with
  | nil =>
      intro _ i hi
      exact absurd hi (by simp)
  | cons f rest ih =>
      intro hsz i hi
      have hf : f.length = fs := hsz f (List.mem_cons_self f rest)
      have hrest := fun g hg => hsz g (List.mem_cons_of_mem f hg)
      cases i with
      | zero =>
          simp only [List.flatten_cons, Nat.zero_mul, List.drop_zero,
            List.getElem_cons_zero]
          rw [← hf]
          exact List.take_left f rest.flatten
      | succ j =>
          have hj : j < rest.length := by simpa using hi
          have hstep : (j + 1) * fs = f.length + j * fs := by rw [hf]; ring
          simp only [List.flatten_cons, List.getElem_cons_succ]
          rw [hstep, List.drop_append]
          exact ih hrest j hj

/-- **C2.** For every `width > 0`, `height > 0`, `n ≥ 1` and byte buffer
that is the concatenation of `n` frames of exactly `width*height*3` bytes
each, `convert_raw_to_frames` yields exactly `n` frames, equal to the
original frames, and frame `i` is the byte slice
`[i*frameSize, (i+1)*frameSize)` of the input, in input order. -/
theorem convert_concat_exact (width height n : ℕ) (frames : List (List ℕ))
    (hw : 0 < width) (hh : 0 < height) (hn : 1 ≤ n)
    (hlen : frames.length = n)
    (hsz : ∀ f ∈ frames, f.length = frame_size width height) :
    (convert_raw_to_frames frames.flatten width height).length = n ∧
    convert_raw_to_frames frames.flatten width height = frames ∧
    ∀ i < n, (convert_raw_to_frames frames.flatten width height)[i]? =
      some ((frames.flatten.drop (i * frame_size width height)).take
        (frame_size width height)) := by
  have hfs : 0 < frame_size width height :=
    Nat.mul_pos (Nat.mul_pos hw hh) (by norm_num)
  have hflat : frames.flatten.length = n * frame_size width height := by
    rw [flatten_length_const _ frames hsz, hlen]
  have hq : frames.flatten.length / frame_size width height = n := by
    rw [hflat]
    exact Nat.mul_div_cancel n hfs
  have hlen2 : (convert_raw_to_frames frames.flatten width height).length = n := by
    unfold convert_raw_to_frames
    rw [List.length_map, List.length_range, hq]
  have heq : convert_raw_to_frames frames.flatten width height = frames := by
    apply List.ext_getElem
    · rw [hlen2, hlen]
    · intro i h1 h2
      simp only [convert_raw_to_frames, hq, List.getElem_map, List.getElem_range]
      exact flatten_slice _ frames hsz i h2
  refine ⟨hlen2, heq, ?_⟩
  intro i hi
  have h2 : i < frames.length := by rw [hlen]; exact hi
  rw [heq, List.getElem?_eq_getElem h2]
  exact congrArg some (flatten_slice _ frames hsz i h2).symm

/-- Witness for `convert_concat_exact`: two 1×1 frames round-trip. -/
theorem convert_concat_exact_witness :
    convert_raw_to_frames ([[1, 2, 3], [4, 5, 6]] : List (List ℕ)).flatten 1 1 =
      [[1, 2, 3], [4, 5, 6]] :=
  (convert_concat_exact 1 1 2 [[1, 2, 3], [4, 5, 6]] (by decide) (by decide)
    (by decide) (by decide) (by decide)).2.1

/-- No diagnostic `convert_raw_to_frames` prints is a truncation warning:
the trailing remainder is dropped silently. -/
theorem convertMessages_no_truncation (data : List ℕ) (width height : ℕ) :
    ∀ msg ∈ convertMessages data width height,
      msg.isTruncationWarning = false := by
  intro msg hmem
  simp only [convertMessages, List.mem_append] at hmem
  rcases hmem with (h | h) | h
  · rcases List.mem_cons.mp h with h1 | h1
    · subst h1; rfl
    · rcases List.mem_cons.mp h1 with h2 | h2
      · subst h2; rfl
      · exact (List.not_mem_nil _ h2).elim
  · rcases List.mem_filterMap.mp h with ⟨i, _, heq⟩
    by_cases hc : (i + 1) % 10 = 0 ∨
        i = data.length / frame_size width height - 1
    · rw [if_pos hc] at heq
      rw [← Option.some.inj heq]
      rfl
    · rw [if_neg hc] at heq
      exact Option.noConfusion heq
  · by_cases hn : data.length / frame_size width height ≠ 0
    · rw [if_pos hn] at h
      rcases List.mem_cons.mp h with h1 | h1
      · subst h1; rfl
      · rcases List.mem_cons.mp h1 with h2 | h2
        · subst h2; rfl
        · exact (List.not_mem_nil _ h2).elim
    · rw [if_neg hn] at h
      rcases List.mem_cons.mp h with h1 | h1
      · subst h1; rfl
      · exact (List.not_mem_nil _ h1).elim

/-- **C6 counterexample.** For the truncated 1×1 buffer `[9, 9, 9, 7]`
(one full frame plus one trailing byte) the decoder does yield exactly
one frame and drops the tail, but no TruncatedStreamWarning is reported —
no diagnostic the code prints is a truncation warning — so the claim's
warning conjunct fails. -/
theorem truncated_no_warning_counterexample :
    ¬ ((convert_raw_to_frames [9, 9, 9, 7] 1 1).length = 1 ∧
       convert_raw_to_frames [9, 9, 9, 7] 1 1 = [[9, 9, 9]] ∧
       ∃ msg ∈ convertMessages [9, 9, 9, 7] 1 1,
         msg.isTruncationWarning = true) := by
  decide

/-- **C6 (amended).** When the input buffer has length
`n*frameSize + k` with `0 < k < frameSize`, decoding yields exactly `n`
frames, the trailing `k` bytes are discarded (the output equals the
decode of the buffer truncated to `n*frameSize` bytes) and no exception
is raised (the decoder is a total function) — but the drop is silent: no
emitted diagnostic is a truncation warning. -/
theorem truncated_decode_drops_tail (width height n k : ℕ) (data : List ℕ)
    (hw : 0 < width) (hh : 0 < height)
    (hlen : data.length = n * frame_size width height + k)
    (hk0 : 0 < k) (hkfs : k < frame_size width height) :
    (convert_raw_to_frames data width height).length = n ∧
    convert_raw_to_frames data width height =
      convert_raw_to_frames (data.take (n * frame_size width height))
        width height ∧
    ∀ msg ∈ convertMessages data width height,
      msg.isTruncationWarning = false := by
  have hfs : 0 < frame_size width height :=
    Nat.mul_pos (Nat.mul_pos hw hh) (by norm_num)
  have hq : data.length / frame_size width height = n := by
    rw [hlen, Nat.mul_comm n (frame_size width height), Nat.mul_add_div hfs,
      Nat.div_eq_of_lt hkfs, Nat.add_zero]
  have hlen' : (data.take (n * frame_size width height)).length =
      n * frame_size width height := by
    rw [List.length_take]
    exact min_eq_left (by rw [hlen]; omega)
  have htq : (data.take (n * frame_size width height)).length /
      frame_size width height = n := by
    rw [hlen']
    exact Nat.mul_div_cancel n hfs
  have hslice : ∀ i, i < n →
      ((data.take (n * frame_size width height)).drop
          (i * frame_size width height)).take (frame_size width height) =
        (data.drop (i * frame_size width height)).take
          (frame_size width height) := by
    intro i hi
    rw [List.take_drop, List.take_drop]
    congr 1
    rw [List.take_take]
    congr 1
    have hle : i * frame_size width height + frame_size width height ≤
        n * frame_size width height := by
      have h1 : (i + 1) * frame_size width height ≤
          n * frame_size width height := Nat.mul_le_mul_right _ hi
      rw [Nat.succ_mul] at h1
      exact h1
    exact min_eq_left hle
  refine ⟨?_, ?_, convertMessages_no_truncation data width height⟩
  · unfold convert_raw_to_frames
    rw [List.length_map, List.length_range, hq]
  · unfold convert_raw_to_frames
    rw [hq, htq]
    refine List.map_congr_left ?_
    intro i hi
    exact (hslice i (List.mem_range.mp hi)).symm

/-- Witness for `truncated_decode_drops_tail` on the 1×1 buffer
`[9, 9, 9, 7]` (`n = 1`, `k = 1`). -/
theorem truncated_decode_drops_tail_witness :
    (convert_raw_to_frames [9, 9, 9, 7] 1 1).length = 1 ∧
    convert_raw_to_frames [9, 9, 9, 7] 1 1 =
      convert_raw_to_frames (([9, 9, 9, 7] : List ℕ).take (1 * frame_size 1 1))
        1 1 ∧
    ∀ msg ∈ convertMessages [9, 9, 9, 7] 1 1,
      msg.isTruncationWarning = false :=
  truncated_decode_drops_tail 1 1 1 1 [9, 9, 9, 7] (by decide) (by decide)
    (by decide) (by decide) (by decide)

/-- **C9.** Given an empty frame sequence, the artifact writer produces
no animated GIF and no "latest" pointer, raises no exception, and its
return value is distinguishable from that of every successful (non-empty)
run: the returned frame count is 0 while every non-empty run returns its
positive frame count. -/
theorem write_empty_soft_failure :
    (write_artifacts []).gifWritten = false ∧
    (write_artifacts []).latestWritten = false ∧
    (write_artifacts []).raised = false ∧
    (write_artifacts []).retFrames = 0 ∧
    ∀ images : List (List ℕ), images ≠ [] →
      (write_artifacts images).retFrames ≠ (write_artifacts []).retFrames := by
  refine ⟨rfl, rfl, rfl, rfl, ?_⟩
  intro images hne
  have hpos := List.length_pos.mpr hne
  simp only [write_artifacts, List.length_nil]
  omega

/-- Witness for `write_empty_soft_failure`: a one-frame run's return
value differs from the empty run's. -/
theorem write_empty_soft_failure_witness :
    (write_artifacts [[1, 2, 3]]).retFrames ≠ (write_artifacts []).retFrames :=
  write_empty_soft_failure.2.2.2.2 [[1, 2, 3]] (by decide)

/-- Removing a file makes it unreadable. -/
theorem fsRead_remove_self (fs : FS) (name : String) :
    fsRead (fsRemove fs name) name = none := by
  induction fs with
  | nil => rfl
  | cons e rest ih =>
      obtain ⟨k, v⟩ := e
      by_cases h : k = name
      · simp [fsRemove, h, ih]
      · simp [fsRemove, fsRead, h, ih]

/-- Removing one file leaves every other file readable as before. -/
theorem fsRead_remove_ne (fs : FS) (name other : String) (h : other ≠ name) :
    fsRead (fsRemove fs name) other = fsRead fs other := by
  induction fs with
  | nil => rfl
  | cons e rest ih =>
      obtain ⟨k, v⟩ := e
      by_cases hk : k = name
      · subst hk
        simp [fsRemove, fsRead, Ne.symm h, ih]
      · simp [fsRemove, fsRead, hk, ih]

/-- **C8 counterexample.** A concrete successful update run (fresh GIF
present, old "latest" pointer present) in which it is false that the
"latest" pointer is readable at every observable state of the update:
after the `os.remove` and before the `shutil.copy`, the pointer is
missing — the update is remove-then-copy, not an atomic replace. -/
theorem latest_update_not_atomic :
    ¬ (∀ s ∈ updateLatestTrace [("run.gif", 2), ("latest.gif", 1)]
          "run.gif" "latest.gif",
        (fsRead s "latest.gif").isSome = true) := by
  decide

/-- **C8 (amended).** The "latest"-pointer update is a remove-then-copy,
not a write-to-temporary-then-rename: whenever the fresh GIF exists, the
final state of the update holds the GIF's content under the pointer name,
but the observable intermediate state (after `os.remove`, before
`shutil.copy`) has no "latest" pointer at all, so a concurrent reader can
observe it missing. -/
theorem latest_update_remove_then_copy (fs : FS) (gif latest : String)
    (c : ℕ) (hgif : fsRead fs gif = some c) (hne : gif ≠ latest) :
    ∃ s1 : FS, updateLatestTrace fs gif latest = [fs, s1, fsWrite s1 latest c] ∧
      fsRead s1 latest = none ∧
      fsRead (fsWrite s1 latest c) latest = some c := by
  refine ⟨if (fsRead fs latest).isSome then fsRemove fs latest else fs,
    ?_, ?_, ?_⟩
  · have hs1gif :
        fsRead (if (fsRead fs latest).isSome then fsRemove fs latest else fs)
          gif = some c := by
      split_ifs with h
      · rw [fsRead_remove_ne fs latest gif hne]
        exact hgif
      · exact hgif
    simp only [updateLatestTrace, hs1gif]
  · split_ifs with h
    · exact fsRead_remove_self fs latest
    · cases hr : fsRead fs latest with
      | none => rfl
      | some v => rw [hr] at h; simp at h
  · simp [fsWrite, fsRead]

/-- Witness for `latest_update_remove_then_copy` on a concrete
two-file directory. -/
theorem latest_update_remove_then_copy_witness :
    ∃ s1 : FS,
      updateLatestTrace [("run.gif", 2), ("latest.gif", 1)]
          "run.gif" "latest.gif" =
        [[("run.gif", 2), ("latest.gif", 1)], s1, fsWrite s1 "latest.gif" 2] ∧
      fsRead s1 "latest.gif" = none ∧
      fsRead (fsWrite s1 "latest.gif" 2) "latest.gif" = some 2 :=
  latest_update_remove_then_copy [("run.gif", 2), ("latest.gif", 1)]
    "run.gif" "latest.gif" 2 (by decide) (by decide)
